import Mathlib

/-!
Formal model of the metric-normalization and comparison engine of
`analysis.py` (the ML Bazaar paper analysis script).

Python dataframes are modelled as lists of row records.  The float columns
that the aggregation routines compare, join and tally are modelled with `ℚ`
(exact values, decidable comparisons); `ℝ` is used where the source applies
`exp` / `log10` / `sqrt`.  A raised Python exception is modelled with
`Except`; a pandas missing value (`NaN`) with `Option`, or with the explicit
float-value type `FVal` where `inf` must be kept distinct from `NaN`.
-/

namespace MLBazaar

/-- Does the character list `pat` occur at the start of `l`? -/
def listStarts : List Char → List Char → Bool
  | [], _ => true
  | _ :: _, [] => false
  | a :: pat, b :: l => a == b && listStarts pat l

/-- Substring containment: models pandas `.str.contains(pat)` for the
plain-text patterns used in the source (`'trivial'`, `'Error'`, `'xgb'`,
`'random_forest'`, `'gpei'`, `'gpmatern52ei'`), none of which contain
regex metacharacters. -/
def strContainsSub (s pat : String) : Bool :=
  (List.range (s.data.length + 1)).any fun i => listStarts pat.data (s.data.drop i)

/-- Lookup in an association list keyed by strings; models both a Python
dict lookup and a pandas index alignment (`.join` on the index). -/
def alookup {β : Type _} (k : String) : List (String × β) → Option β
  | [] => none
  | p :: ps => if p.1 = k then some p.2 else alookup k ps

/- ---------------------------------------------------------------------
`_METRIC_TYPES` (analysis.py lines 172-180): the metric registry, a dict
from metric name to metric-family name.
--------------------------------------------------------------------- -/

def METRIC_TYPES : List (String × String) :=
  [("f1", "zero_one_score"),
   ("f1Macro", "zero_one_score"),
   ("accuracy", "zero_one_score"),
   ("normalizedMutualInformation", "zero_one_score"),
   ("meanSquaredError", "zero_inf_cost"),
   ("meanAbsoluteError", "zero_inf_cost"),
   ("rootMeanSquaredError", "zero_inf_cost")]

/- ---------------------------------------------------------------------
`SCORE_MAPPING` (analysis.py lines 182-191): a dict from metric-family name
to a normalizer `lambda x, min, max: ...`.  The `min` / `max` arguments may
be Python `None` (and are `None` on the annotation path, which calls
`_make_normalizer` with its default arguments), hence `Option ℝ`.
Arithmetic on `None` (the `ranged_score` entry) raises a `TypeError`,
modelled with `Except.error`.
-/

/-- The type of one `SCORE_MAPPING` entry. -/
abbrev NormFn : Type := ℝ → Option ℝ → Option ℝ → Except String ℝ

/-- `'zero_one_score': lambda x, min, max: x` -/
def zero_one_score : NormFn := fun x _ _ => Except.ok x

/-- `'zero_one_cost': lambda x, min, max: x` — note: the identity, NOT
`1 - x`; compare `real_cost` and `zero_inf_cost` below, which are each
`1 -` their score counterpart. -/
def zero_one_cost : NormFn := fun x _ _ => Except.ok x

/-- `'ranged_score': lambda x, min, max: (x - min)/(max - min)`; with a
`None` bound the subtraction raises a `TypeError`. -/
noncomputable def ranged_score : NormFn := fun x mn mx =>
  match mn, mx with
  | some mn, some mx => Except.ok ((x - mn) / (mx - mn))
  | _, _ => Except.error "TypeError: unsupported operand type(s) for -"

/-- `'real_score': lambda x, min, max: 1 / (1+np.exp(-x))` -/
noncomputable def real_score : NormFn := fun x _ _ =>
  Except.ok (1 / (1 + Real.exp (-x)))

/-- `'real_cost': lambda x, min, max: 1 - (1 / (1 + np.exp(-x)))` -/
noncomputable def real_cost : NormFn := fun x _ _ =>
  Except.ok (1 - 1 / (1 + Real.exp (-x)))

/-- `'zero_inf_score': lambda x, min, max: 1 / (1 + np.exp(-np.log10(x)))`
(`log10` is modelled with `Real.logb 10`; the claims only evaluate this
family on its valid domain `x > 0`). -/
noncomputable def zero_inf_score : NormFn := fun x _ _ =>
  Except.ok (1 / (1 + Real.exp (-(Real.logb 10 x))))

/-- `'zero_inf_cost': lambda x, min, max: 1 - 1 / (1 + np.exp(-np.log10(x)))` -/
noncomputable def zero_inf_cost : NormFn := fun x _ _ =>
  Except.ok (1 - 1 / (1 + Real.exp (-(Real.logb 10 x))))

/-- `SCORE_MAPPING` (analysis.py lines 182-191). -/
noncomputable def SCORE_MAPPING : List (String × NormFn) :=
  [("zero_one_score", zero_one_score),
   ("zero_one_cost", zero_one_cost),
   ("ranged_score", ranged_score),
   ("real_score", real_score),
   ("real_cost", real_cost),
   ("zero_inf_score", zero_inf_score),
   ("zero_inf_cost", zero_inf_cost)]

/-- `_make_normalizer(metric_type, min=None, max=None)` (lines 193-198):
looks the family up in `SCORE_MAPPING` (raising `ValueError` on a miss) and
returns the normalizer with the bounds partially applied. -/
noncomputable def make_normalizer (metricType : String) (mn mx : Option ℝ) :
    Except String (ℝ → Except String ℝ) :=
  match alookup metricType SCORE_MAPPING with
  | none => Except.error ("ValueError: Unknown metric type: " ++ metricType)
  | some f => Except.ok (fun x => f x mn mx)

/- ---------------------------------------------------------------------
`_normalize_df` / `_add_tscores` (analysis.py lines 201-208): the t-score
annotator, applied row-wise by `df.apply(..., axis=1)`.
--------------------------------------------------------------------- -/

/-- One row of a table fed to the annotator: its `metric` column and the
value of the score column named by the caller (`score`, `cv_score`, ...). -/
structure Row where
  metric : String
  score : ℝ

/-- A table as the annotator sees it: the rows, plus the `'t-score'` column
when present (column presence is table-level in pandas). -/
structure DFrame where
  rows : List Row
  tscore : Option (List ℝ)

/-- `_normalize_df(df, score_name)` (lines 201-203) for one row: the metric
registry lookup `_METRIC_TYPES[df['metric']]` raises `KeyError` on an
unknown metric; the normalizer is built with its default bounds
(`min=None, max=None`) and applied to the row's score value. -/
noncomputable def normalize_df (r : Row) : Except String ℝ :=
  match alookup r.metric METRIC_TYPES with
  | none => Except.error ("KeyError: " ++ r.metric)
  | some mt =>
    match make_normalizer mt none none with
    | Except.error e => Except.error e
    | Except.ok normalize => normalize r.score

/-- Row-wise `df.apply` with exception propagation: the first row whose
normalization raises aborts the whole application. -/
def mapExcept {α β ε : Type _} (f : α → Except ε β) : List α → Except ε (List β)
  | [] => Except.ok []
  | a :: as =>
    match f a with
    | Except.error e => Except.error e
    | Except.ok b =>
      match mapExcept f as with
      | Except.error e => Except.error e
      | Except.ok bs => Except.ok (b :: bs)

/-- `_add_tscores(df, score_name)` (lines 206-208).  The Python function
returns `None` and communicates by assigning a new column to its argument.
The result models the pair `(returned value, post-state of the caller's
table object)`: `df['t-score'] = df.apply(_normalize_df, axis=1)` is an
in-place update of the argument. -/
noncomputable def add_tscores (df : DFrame) : Except String (Option DFrame × DFrame) :=
  if df.tscore.isSome then Except.ok (none, df)
  else
    match mapExcept normalize_df df.rows with
    | Except.error e => Except.error e
    | Except.ok ts => Except.ok (none, { df with tscore := some ts })

/- ---------------------------------------------------------------------
`compute_xgb_wins_pct_VI_B` (lines 512-550) and
`compute_matern_wins_pct_VI_C` (lines 585-627): the pairwise win
aggregator.  The two source functions are identical up to the descriptor
field, the two condition tags and the two column labels, so they are
realized as instances of one parametrized pipeline.
--------------------------------------------------------------------- -/

/-- One row of the test-results table as the win aggregator sees it:
`dataset`, the free-text descriptor fields `pipeline` and `tuner_type`
(nullable), and the `'t-score'` column. -/
structure TRow where
  dataset : String
  pipeline : Option String
  tuner_type : Option String
  tscore : ℚ

/-- `_df[field].str.contains(tag).fillna(False)`: a missing descriptor is a
non-match. -/
def fieldMatches (field : TRow → Option String) (tag : String) (r : TRow) : Bool :=
  match field r with
  | some s => strContainsSub s tag
  | none => false

/-- The distinct datasets of a table, one per `groupby('dataset')` group.
(pandas enumerates groups in sorted key order; no result proved below
depends on the enumeration order of this key list.) -/
def datasetsOf (rows : List TRow) : List String :=
  (rows.map TRow.dataset).dedup

/-- One condition's per-dataset best achievement:
`df[match].groupby('dataset')['t-score'].max()`. -/
def bestSeries (field : TRow → Option String) (tag : String) (df : List TRow) :
    List (String × ℚ) :=
  let m := df.filter (fieldMatches field tag)
  (datasetsOf m).filterMap fun d =>
    ((m.filter fun r => r.dataset == d).map TRow.tscore).max?.map fun q => (d, q)

/-- `left.join(right).fillna(0)`: pandas `DataFrame.join` defaults to
`how='left'`, so the joined index is exactly the LEFT frame's index; a
dataset missing from the right series gets the fill value 0. -/
def joinFilled (left right : List (String × ℚ)) : List (String × ℚ × ℚ) :=
  left.map fun p => (p.1, p.2, (alookup p.1 right).getD 0)

/-- `np.argmax` applied to a labelled row (pandas of the source's vintage
dispatches this to `Series.idxmax`, returning the label of the FIRST
occurrence of the row maximum; the source suppresses the accompanying
`FutureWarning` at line 29). -/
def argmaxRow : List (String × ℚ) → Option String
  | [] => none
  | p :: ps => some ((ps.foldl (fun best q => if best.2 < q.2 then q else best) p).1)

/-- The winner attribution for one joined, filled row with the two column
labels in frame order. -/
def winnerLabels (labelA labelB : String) (a b : ℚ) : Option String :=
  argmaxRow [(labelA, a), (labelB, b)]

/-- Descending insertion for `value_counts` (counts sorted largest first). -/
def insertDesc (p : String × ℕ) : List (String × ℕ) → List (String × ℕ)
  | [] => [p]
  | q :: qs => if p.2 ≤ q.2 then q :: insertDesc p qs else p :: q :: qs

/-- `Series.value_counts()`: occurrence counts of the labels, sorted by
count descending. -/
def value_counts (labels : List String) : List (String × ℕ) :=
  (labels.dedup.map fun l => (l, labels.count l)).foldr insertDesc []

/-- The common body of the two win-percentage functions: filter each
condition by substring tag, take per-dataset best t-scores, `join` (left),
`fillna(0)`, attribute each dataset via row-wise `np.argmax`,
`value_counts`, attach `percent = wins / sum(wins)` and append the
column-sum `total` row.  Result rows are `(label, wins, percent)`. -/
def wins_result (field : TRow → Option String) (tagA tagB labelA labelB : String)
    (df : List TRow) : List (String × ℕ × ℚ) :=
  let aSeries := bestSeries field tagA df
  let bSeries := bestSeries field tagB df
  let joined := joinFilled aSeries bSeries
  let labels := joined.filterMap fun t => winnerLabels labelA labelB t.2.1 t.2.2
  let counts := value_counts labels
  let totalWins : ℕ := (counts.map Prod.snd).sum
  let rows := counts.map fun c => (c.1, c.2, (c.2 : ℚ) / (totalWins : ℚ))
  rows ++ [("total", (rows.map fun r => r.2.1).sum, (rows.map fun r => r.2.2).sum)]

/-- `compute_xgb_wins_pct_VI_B` (lines 512-550): conditions selected by
`pipeline` containing `'random_forest'` / `'xgb'`; columns `'RF'`, `'XGB'`
in that order. -/
def compute_xgb_wins_pct_VI_B (df : List TRow) : List (String × ℕ × ℚ) :=
  wins_result (fun r => r.pipeline) "random_forest" "xgb" "RF" "XGB" df

/-- `compute_matern_wins_pct_VI_C` (lines 585-627): conditions selected by
`tuner_type` containing `'gpei'` / `'gpmatern52ei'`; columns `'GP-SE-EI'`,
`'GP-Matern52-EI'` in that order. -/
def compute_matern_wins_pct_VI_C (df : List TRow) : List (String × ℕ × ℚ) :=
  wins_result (fun r => r.tuner_type) "gpei" "gpmatern52ei" "GP-SE-EI" "GP-Matern52-EI" df

/- ---------------------------------------------------------------------
`_get_tuning_results_df` (lines 211-273) and its consumer
`compute_tuning_improvement_sds_VI_A` (lines 464-476): the tuning-delta
aggregator.
--------------------------------------------------------------------- -/

/-- One row of the pipelines table used by the tuning-delta aggregator. -/
structure PRow where
  dataset : String
  name : String
  score : ℚ
  ts : ℕ
  metric : String

/-- The rows of one `groupby('dataset')` group, in original row order. -/
def rowsOf (df : List PRow) (d : String) : List PRow :=
  df.filter fun r => r.dataset == d

/-- The raw scores of one dataset. -/
def scoresOf (df : List PRow) (d : String) : List ℚ :=
  (rowsOf df d).map PRow.score

/-- The distinct datasets of the pipelines table (one per
`groupby('dataset')` group; enumeration order does not affect any result
proved below). -/
def pdatasets (df : List PRow) : List String :=
  (df.map PRow.dataset).dedup

/-- `group.sort_values(by='ts', ascending=True)['score'].iloc[0]`: the row
half — a stable ascending sort by `ts` followed by `iloc[0]` selects the
first row (in original order) attaining the minimal `ts`. -/
def firstByTs : List PRow → Option PRow
  | [] => none
  | r :: rs =>
    match firstByTs rs with
    | none => some r
    | some b => if b.ts < r.ts then some b else some r

/-- Mean of a list of rationals (`Series.mean`); only applied to nonempty
lists below. -/
def qmean (l : List ℚ) : ℚ := l.sum / (l.length : ℚ)

/-- Sample variance (`ddof=1`, the pandas default): `NaN` (none) for fewer
than two observations. -/
def sampleVar (l : List ℚ) : Option ℚ :=
  if l.length < 2 then none
  else some ((l.map fun x => (x - qmean l) ^ 2).sum / ((l.length : ℚ) - 1))

/-- `Series.std()`: the square root of the sample variance. -/
noncomputable def sampleStd (l : List ℚ) : Option ℝ :=
  (sampleVar l).map fun v : ℚ => Real.sqrt (v : ℝ)

/-- The distinct `(dataset, name)` pairs, one per
`groupby(['dataset', 'name'])` group. -/
def pairKeys (df : List PRow) : List (String × String) :=
  (df.map fun r => (r.dataset, r.name)).dedup

/-- The rows of one `(dataset, name)` group. -/
def groupRows (df : List PRow) (k : String × String) : List PRow :=
  df.filter fun r => r.dataset == k.1 && r.name == k.2

/-- `default_scores`, stage 1 (lines 221-225): per `(dataset, name)` group
the score of the earliest-by-`ts` row
(`groupby(['dataset', 'name']).apply(default_score)`). -/
def perGroupDefaults (df : List PRow) : List ((String × String) × ℚ) :=
  (pairKeys df).filterMap fun k =>
    (firstByTs (groupRows df k)).map fun r => (k, r.score)

/-- `default_scores`, stage 2 (line 228): drop groups whose template
contains `'trivial'`. -/
def nontrivialDefaults (df : List PRow) : List ((String × String) × ℚ) :=
  (perGroupDefaults df).filter fun p => !(strContainsSub p.1.2 "trivial")

/-- `default_scores` (lines 221-233): the remaining per-group defaults
averaged per dataset (`groupby('dataset')['default_score'].mean()`). -/
def default_scores (df : List PRow) : List (String × ℚ) :=
  (((nontrivialDefaults df).map fun p => p.1.1).dedup).map fun d =>
    (d, qmean ((nontrivialDefaults df).filterMap fun p =>
      if p.1.1 == d then some p.2 else none))

/-- `min_max_scores` (lines 235-240): per-dataset min and max raw score. -/
def min_max_scores (df : List PRow) : List (String × ℚ × ℚ) :=
  (pdatasets df).filterMap fun d =>
    match (scoresOf df d).min?, (scoresOf df d).max? with
    | some mn, some mx => some (d, mn, mx)
    | _, _ => none

/-- The min/max pair of one dataset's scores (some iff the dataset has at
least one row); the per-key content of `min_max_scores`. -/
def minMaxOf (df : List PRow) (d : String) : Option (ℚ × ℚ) :=
  match (scoresOf df d).min?, (scoresOf df d).max? with
  | some mn, some mx => some (mn, mx)
  | _, _ => none

/-- `sds` (lines 242-248): per-dataset sample standard deviation of the raw
scores. -/
noncomputable def sds (df : List PRow) : List (String × Option ℝ) :=
  (pdatasets df).map fun d => (d, sampleStd (scoresOf df d))

/-- `adjustments` (lines 252-261): `-1` if the dataset's first metric name
contains `'Error'`, else `+1`. -/
def adjustments (df : List PRow) : List (String × ℤ) :=
  (pdatasets df).filterMap fun d =>
    ((rowsOf df d).head?).map fun r =>
      (d, if strContainsSub r.metric "Error" then (-1 : ℤ) else 1)

/-- A float value as produced by `data.eval(...)` under numpy semantics:
a number, a signed infinity, or `NaN` (the missing value that `dropna`
removes — `dropna` does NOT remove infinities). -/
inductive FVal where
  | num : ℝ → FVal
  | posInf : FVal
  | negInf : FVal
  | nan : FVal

def FVal.isNan : FVal → Bool
  | FVal.nan => true
  | _ => false

/-- One row of the per-dataset tuning summary (lines 263-272). -/
structure TuningSummary where
  min_score : ℚ
  max_score : ℚ
  default_score : Option ℚ
  sd : Option ℝ
  adjustment : Option ℤ
  best_score : ℚ
  delta : FVal

/-- `data.eval('adjustment * (best_score - default_score) / sd')` under
numpy float semantics: `NaN` operands propagate; division by zero gives
`NaN` for a zero numerator and a signed infinity otherwise. -/
noncomputable def evalDelta (adjustment : Option ℤ) (best : ℚ) (dflt : Option ℚ)
    (sd : Option ℝ) : FVal :=
  match adjustment, dflt, sd with
  | some adj, some dv, some s =>
    let n : ℝ := (adj : ℝ) * ((best : ℝ) - (dv : ℝ))
    if s = 0 then
      if n = 0 then FVal.nan else if 0 < n then FVal.posInf else FVal.negInf
    else FVal.num (n / s)
  | _, _, _ => FVal.nan

/-- One row of the joined frame of `_get_tuning_results_df`, for base row
`p = (dataset, (min_score, max_score))` of `min_max_scores`: the `.join`
calls align `default_scores`, `sds` and `adjustments` on the dataset index
(an absent key joins as `NaN`); `best_score` is `max_score`, overwritten by
`min_score` where `adjustment == -1` (lines 266-268); `delta` is the
row-wise `eval` (lines 270-271). -/
noncomputable def summaryRow (df : List PRow) (p : String × ℚ × ℚ) : TuningSummary :=
  { min_score := p.2.1,
    max_score := p.2.2,
    default_score := alookup p.1 (default_scores df),
    sd := (alookup p.1 (sds df)).join,
    adjustment := alookup p.1 (adjustments df),
    best_score := if alookup p.1 (adjustments df) = some (-1) then p.2.1 else p.2.2,
    delta := evalDelta (alookup p.1 (adjustments df))
      (if alookup p.1 (adjustments df) = some (-1) then p.2.1 else p.2.2)
      (alookup p.1 (default_scores df)) ((alookup p.1 (sds df)).join) }

/-- `_get_tuning_results_df` (lines 211-273): the four per-dataset frames
combined with `min_max_scores.join(default_scores).join(sds)
.join(adjustments)` — left joins on the dataset index, whose base is
`min_max_scores` (all datasets). -/
noncomputable def get_tuning_results_df (df : List PRow) :
    List (String × TuningSummary) :=
  (min_max_scores df).map fun p => (p.1, summaryRow df p)

/-- The distinct templates of one dataset. -/
def dsTemplates (df : List PRow) (d : String) : List String :=
  ((rowsOf df d).map PRow.name).dedup

/-- The per-template default scores of dataset `d`, computed from the
dataset's own rows: for each non-trivial template, the score of the
earliest-by-`ts` row of that `(dataset, template)` group. -/
def dsFirstScores (df : List PRow) (d : String) : List ℚ :=
  ((dsTemplates df d).filter fun t => !(strContainsSub t "trivial")).filterMap fun t =>
    (firstByTs ((rowsOf df d).filter fun r => r.name == t)).map PRow.score

/-- Spec-side statement of the per-dataset default score (spec §4.4 steps
1-3): mean, over the dataset's templates NOT containing `'trivial'`, of the
score of the earliest-by-`ts` row of each `(dataset, template)` group;
missing when no such template exists. -/
def dsDefault (df : List PRow) (d : String) : Option ℚ :=
  if (dsFirstScores df d).isEmpty then none else some (qmean (dsFirstScores df d))

/-- The default score of one `(dataset, template)` group, as a function of
the group key. -/
def tmplFirstScore (df : List PRow) (d t : String) : Option ℚ :=
  (firstByTs (groupRows df (d, t))).map PRow.score

/-- The non-trivial templates of dataset `d` as enumerated by the global
`groupby(['dataset', 'name'])` (the order `default_scores` processes
them). -/
def codeTemplates (df : List PRow) (d : String) : List String :=
  ((pairKeys df).filter fun k => k.1 == d && !(strContainsSub k.2 "trivial")).map Prod.snd

/-- The non-trivial templates of dataset `d` as enumerated from the
dataset's own rows (the spec-side order). -/
def specTemplates (df : List PRow) (d : String) : List String :=
  (dsTemplates df d).filter fun t => !(strContainsSub t "trivial")

/-- Spec-side statement of the per-dataset adjustment (spec §4.4 step 6). -/
def dsAdj (df : List PRow) (d : String) : Option ℤ :=
  ((rowsOf df d).head?).map fun r =>
    if strContainsSub r.metric "Error" then (-1 : ℤ) else 1

/-- Spec-side statement of one dataset's tuning-summary row, built directly
from the dataset's own rows (no global grouping, no joins). -/
noncomputable def specTuningSummary (df : List PRow) (d : String) : TuningSummary :=
  { min_score := ((scoresOf df d).min?).getD 0,
    max_score := ((scoresOf df d).max?).getD 0,
    default_score := dsDefault df d,
    sd := sampleStd (scoresOf df d),
    adjustment := dsAdj df d,
    best_score := if dsAdj df d = some (-1) then ((scoresOf df d).min?).getD 0
      else ((scoresOf df d).max?).getD 0,
    delta := evalDelta (dsAdj df d)
      (if dsAdj df d = some (-1) then ((scoresOf df d).min?).getD 0
        else ((scoresOf df d).max?).getD 0)
      (dsDefault df d) (sampleStd (scoresOf df d)) }

/-- numpy float addition on `FVal` (`NaN` propagates; opposite infinities
give `NaN`). -/
noncomputable def fadd : FVal → FVal → FVal
  | FVal.nan, _ => FVal.nan
  | _, FVal.nan => FVal.nan
  | FVal.num a, FVal.num b => FVal.num (a + b)
  | FVal.posInf, FVal.negInf => FVal.nan
  | FVal.negInf, FVal.posInf => FVal.nan
  | FVal.posInf, _ => FVal.posInf
  | _, FVal.posInf => FVal.posInf
  | FVal.negInf, _ => FVal.negInf
  | _, FVal.negInf => FVal.negInf

/-- Division of an `FVal` by a positive count (the final step of a mean). -/
noncomputable def fdivNat (v : FVal) (n : ℕ) : FVal :=
  match v with
  | FVal.num a => FVal.num (a / (n : ℝ))
  | x => x

/-- `Series.mean()` over float values: `NaN` on an empty series. -/
noncomputable def fmean (l : List FVal) : FVal :=
  if l.isEmpty then FVal.nan
  else fdivNat (l.foldl fadd (FVal.num 0)) l.length

/-- `compute_tuning_improvement_sds_VI_A` (lines 464-476):
`data['delta'].dropna().mean()`. -/
noncomputable def compute_tuning_improvement_sds_VI_A (df : List PRow) : FVal :=
  fmean (((get_tuning_results_df df).map fun p => p.2.delta).filter fun v => !v.isNan)

/-- The synthetic one-dataset run table of the spec's `tuning_deltas` test
property: scores `[0.5, 0.7, 0.9]` in time order, a single non-trivial
template, a score-style metric. -/
def pipelinesC3 : List PRow :=
  [⟨"syn", "tmpl", 1/2, 0, "accuracy"⟩,
   ⟨"syn", "tmpl", 7/10, 1, "accuracy"⟩,
   ⟨"syn", "tmpl", 9/10, 2, "accuracy"⟩]

/- =====================================================================
Helper lemmas
===================================================================== -/

theorem mapExcept_ok_length {α β ε : Type _} (f : α → Except ε β) :
    ∀ (l : List α) (bs : List β), mapExcept f l = Except.ok bs → bs.length = l.length := by
  intro l
  induction l with
  | nil => intro bs h; cases h; rfl
  | cons a as ih =>
    intro bs h
    unfold mapExcept at h
    cases hfa : f a with
    | error e => rw [hfa] at h; cases h
    | ok b =>
      rw [hfa] at h
      cases hrest : mapExcept f as with
      | error e => rw [hrest] at h; cases h
      | ok bs2 =>
        rw [hrest] at h
        cases h
        simp [ih bs2 hrest]

theorem mapExcept_eq_ok_iff {α β ε : Type _} (f : α → Except ε β) (l : List α) :
    (∃ bs, mapExcept f l = Except.ok bs) ↔ ∀ a ∈ l, ∃ b, f a = Except.ok b := by
  induction l with
  | nil => simp [mapExcept]
  | cons a as ih =>
    constructor
    · rintro ⟨bs, hbs⟩ x hx
      unfold mapExcept at hbs
      cases hfa : f a with
      | error e => rw [hfa] at hbs; cases hbs
      | ok b =>
        rw [hfa] at hbs
        cases hrest : mapExcept f as with
        | error e => rw [hrest] at hbs; cases hbs
        | ok bs2 =>
          rcases List.mem_cons.mp hx with rfl | hx2
          · exact ⟨b, hfa⟩
          · exact ih.mp ⟨bs2, hrest⟩ x hx2
    · intro hall
      rcases hall a (List.mem_cons_self a as) with ⟨b, hb⟩
      rcases ih.mpr (fun x hx => hall x (List.mem_cons_of_mem a hx)) with ⟨bs, hbs⟩
      refine ⟨b :: bs, ?_⟩
      unfold mapExcept
      rw [hb, hbs]

theorem except_error_iff_not_ok {β ε : Type _} {x : Except ε β} :
    (∃ e, x = Except.error e) ↔ ¬ ∃ b, x = Except.ok b := by
  cases x <;> simp

theorem metric_types_values {m mt : String} (h : alookup m METRIC_TYPES = some mt) :
    mt = "zero_one_score" ∨ mt = "zero_inf_cost" := by
  simp only [METRIC_TYPES, alookup] at h
  split_ifs at h <;> simp_all

theorem normalize_df_error {r : Row} (h : alookup r.metric METRIC_TYPES = none) :
    normalize_df r = Except.error ("KeyError: " ++ r.metric) := by
  unfold normalize_df
  rw [h]

theorem normalize_df_ok {r : Row} {mt : String}
    (h : alookup r.metric METRIC_TYPES = some mt) :
    ∃ y, normalize_df r = Except.ok y := by
  rcases metric_types_values h with h2 | h2 <;>
    · subst h2
      unfold normalize_df
      rw [h]
      exact ⟨_, rfl⟩

theorem normalize_df_ok_iff (r : Row) :
    (∃ y, normalize_df r = Except.ok y) ↔ alookup r.metric METRIC_TYPES ≠ none := by
  constructor
  · rintro ⟨y, hy⟩ hnone
    rw [normalize_df_error hnone] at hy
    cases hy
  · intro hne
    cases hmt : alookup r.metric METRIC_TYPES with
    | none => exact absurd hmt hne
    | some mt => exact normalize_df_ok hmt

/- =====================================================================
Claim theorems: normalization and annotation (C1, C4, C7, C8, C9, C10)
===================================================================== -/

/-- C1: the claim states that normalizing a raw value `x ∈ [0,1]` under the
bounded-cost family returns `1 - x` while the bounded-score family returns
`x` unchanged.  The code's `SCORE_MAPPING['zero_one_cost']` is the
identity, so at `x = 0.3` it returns `0.3`, not `1 - 0.3 = 0.7`: the
bounded-cost half of the claim fails on the code (the bounded-score half
holds), even though every other cost family in the same mapping is `1 -`
its score counterpart. -/
theorem claim_C1_bounded_cost_identity :
    ("zero_one_cost", zero_one_cost) ∈ SCORE_MAPPING ∧
    zero_one_cost 0.3 none none = Except.ok 0.3 ∧
    ((0.3 : ℝ) ≠ 1 - 0.3) ∧
    zero_one_score 0.3 none none = Except.ok 0.3 :=
  ⟨by simp [SCORE_MAPPING], rfl, by norm_num, rfl⟩

/-- C4: the claim states that every family in the mapping is monotone in
the better-is-higher direction.  For the bounded-cost family
(`zero_one_cost`, lower raw is better) the code is the identity: the
better raw value `0.2` normalizes to `0.2 < 0.8`, violating the claimed
`normalize(raw_a) ≥ normalize(raw_b)`. -/
theorem claim_C4_cost_monotonicity_violation :
    ("zero_one_cost", zero_one_cost) ∈ SCORE_MAPPING ∧
    zero_one_cost 0.2 none none = Except.ok 0.2 ∧
    zero_one_cost 0.8 none none = Except.ok 0.8 ∧
    (0.2 : ℝ) < 0.8 ∧
    ¬ ((0.2 : ℝ) ≥ (0.8 : ℝ)) :=
  ⟨by simp [SCORE_MAPPING], rfl, rfl, by norm_num, by norm_num⟩

/-- C8: the t-score annotator is idempotent — on a table that already has a
`'t-score'` column it returns `None` and leaves the table exactly as it
was (same rows, same t-score values), with no recomputation and no
error. -/
theorem claim_C8_annotator_idempotent (df : DFrame) (ts : List ℝ)
    (h : df.tscore = some ts) :
    add_tscores df = Except.ok (none, df) := by
  unfold add_tscores
  rw [h]
  simp

theorem claim_C8_witness :
    add_tscores ⟨[⟨"f1", 0.5⟩], some [0.5]⟩ =
      Except.ok (none, (⟨[⟨"f1", 0.5⟩], some [0.5]⟩ : DFrame)) :=
  claim_C8_annotator_idempotent _ [0.5] rfl

/-- C7: on a table without a `'t-score'` column, annotation raises an error
iff some row's metric is absent from the metric registry (equivalently, it
succeeds iff every row's metric resolves); and on success the produced
t-score column has exactly one value per row (no row silently dropped). -/
theorem claim_C7_unknown_metric_errors (df : DFrame) (h : df.tscore = none) :
    ((∃ e, add_tscores df = Except.error e) ↔
      ∃ r ∈ df.rows, alookup r.metric METRIC_TYPES = none) ∧
    (∀ v df2, add_tscores df = Except.ok (v, df2) →
      ∃ ts, df2.tscore = some ts ∧ ts.length = df.rows.length) := by
  have hred : add_tscores df =
      match mapExcept normalize_df df.rows with
      | Except.error e => Except.error e
      | Except.ok ts => Except.ok (none, { df with tscore := some ts }) := by
    unfold add_tscores
    rw [h]
    simp
  constructor
  · rw [hred]
    cases hE : mapExcept normalize_df df.rows with
    | error e =>
      simp only []
      constructor
      · intro _
        have hno : ¬ ∃ bs, mapExcept normalize_df df.rows = Except.ok bs := by
          rw [hE]; rintro ⟨bs, hbs⟩; cases hbs
        have := (not_iff_not.mpr (mapExcept_eq_ok_iff normalize_df df.rows)).mp hno
        push_neg at this
        rcases this with ⟨r, hr, hnr⟩
        refine ⟨r, hr, ?_⟩
        by_contra hne
        exact absurd ((normalize_df_ok_iff r).mpr hne) (by simpa using hnr)
      · intro _; exact ⟨e, rfl⟩
    | ok ts =>
      simp only []
      constructor
      · rintro ⟨e, he⟩; cases he
      · rintro ⟨r, hr, hnone⟩
        have : ∃ y, normalize_df r = Except.ok y :=
          (mapExcept_eq_ok_iff normalize_df df.rows).mp ⟨ts, hE⟩ r hr
        rcases this with ⟨y, hy⟩
        rw [normalize_df_error hnone] at hy
        cases hy
  · intro v df2 hok
    rw [hred] at hok
    cases hE : mapExcept normalize_df df.rows with
    | error e => rw [hE] at hok; cases hok
    | ok ts =>
      rw [hE] at hok
      cases hok
      exact ⟨ts, rfl, mapExcept_ok_length normalize_df df.rows ts hE⟩

theorem claim_C7_witness :
    ((∃ e, add_tscores ⟨[⟨"mystery", 0.5⟩], none⟩ = Except.error e) ↔
      ∃ r ∈ (DFrame.mk [⟨"mystery", 0.5⟩] none).rows,
        alookup r.metric METRIC_TYPES = none) ∧
    (∀ v df2, add_tscores ⟨[⟨"mystery", 0.5⟩], none⟩ = Except.ok (v, df2) →
      ∃ ts, df2.tscore = some ts ∧
        ts.length = (DFrame.mk [⟨"mystery", 0.5⟩] none).rows.length) :=
  claim_C7_unknown_metric_errors ⟨[⟨"mystery", 0.5⟩], none⟩ rfl

/-- C9 counterexample: the claim states that the caller's original table
object is not mutated in place by annotation.  In the code
`_add_tscores` assigns `df['t-score'] = ...` on its argument and returns
`None`: on a concrete one-row table the post-state of the caller's object
differs from the original (the column has appeared on it), refuting the
copy-on-write claim. -/
theorem claim_C9_counterexample :
    ∃ df2, add_tscores ⟨[⟨"f1", 0.5⟩], none⟩ = Except.ok (none, df2) ∧
      df2 ≠ (⟨[⟨"f1", 0.5⟩], none⟩ : DFrame) := by
  refine ⟨⟨[⟨"f1", 0.5⟩], some [0.5]⟩, rfl, ?_⟩
  intro hcon
  simp at hcon

/-- C9 amended: `_add_tscores` mutates the caller's table in place — it
returns `None`, and afterwards the caller's object consists of exactly the
original rows plus the new `'t-score'` column (pre-existing data
unchanged). -/
theorem claim_C9_amended_in_place (df : DFrame) (h : df.tscore = none)
    (hres : ∀ r ∈ df.rows, alookup r.metric METRIC_TYPES ≠ none) :
    ∃ ts, mapExcept normalize_df df.rows = Except.ok ts ∧
      add_tscores df = Except.ok (none, { rows := df.rows, tscore := some ts }) := by
  have hok : ∃ ts, mapExcept normalize_df df.rows = Except.ok ts :=
    (mapExcept_eq_ok_iff normalize_df df.rows).mpr
      (fun r hr => (normalize_df_ok_iff r).mpr (hres r hr))
  rcases hok with ⟨ts, hts⟩
  refine ⟨ts, hts, ?_⟩
  unfold add_tscores
  rw [h]
  simp only [Option.isSome_none, Bool.false_eq_true, if_false]
  rw [hts]

theorem claim_C9_amended_witness :
    ∃ ts, mapExcept normalize_df [⟨"accuracy", 0.25⟩] = Except.ok ts ∧
      add_tscores ⟨[⟨"accuracy", 0.25⟩], none⟩ =
        Except.ok (none, { rows := [⟨"accuracy", 0.25⟩], tscore := some ts }) :=
  claim_C9_amended_in_place ⟨[⟨"accuracy", 0.25⟩], none⟩ rfl
    (by
      intro r hr hnone
      rcases List.mem_singleton.mp hr with rfl
      simp [alookup, METRIC_TYPES] at hnone)

/-- C10: the ranged-score family normalizes to `(x - min) / (max - min)`
when both bounds are supplied and raises an error when either bound is
absent (`None`); consequently the annotation path — which builds its
normalizer with the default `min=None, max=None` — fails on every value of
a ranged metric, i.e. the caller must supply the row's bounds for ranged
metrics to normalize at all.  (The code raises a `TypeError` from `None`
arithmetic; the spec's `MissingBoundsError` is its name for this
failure.) -/
theorem claim_C10_ranged_bounds :
    (∀ x mn mx : ℝ, ranged_score x (some mn) (some mx) =
      Except.ok ((x - mn) / (mx - mn))) ∧
    (∀ (x : ℝ) (mn mx : Option ℝ), mn = none ∨ mx = none →
      ∃ e, ranged_score x mn mx = Except.error e) ∧
    ("ranged_score", ranged_score) ∈ SCORE_MAPPING ∧
    (∀ f, make_normalizer "ranged_score" none none = Except.ok f →
      ∀ x, ∃ e, f x = Except.error e) := by
  refine ⟨fun x mn mx => rfl, ?_, by simp [SCORE_MAPPING], ?_⟩
  · rintro x mn mx (rfl | rfl)
    · exact ⟨_, rfl⟩
    · cases mn <;> exact ⟨_, rfl⟩
  · intro f hf x
    have hmk : make_normalizer "ranged_score" none none =
        Except.ok (fun x => ranged_score x none none) := rfl
    rw [hmk] at hf
    injection hf with hf2
    subst hf2
    exact ⟨_, rfl⟩

theorem claim_C10_witness :
    (∃ e, ranged_score 0.5 none (some 1) = Except.error e) ∧
    ranged_score 0.5 (some 0) (some 2) = Except.ok ((0.5 - 0) / (2 - 0)) ∧
    (∃ e, (fun x => ranged_score x none none) (0.5 : ℝ) = Except.error e) :=
  ⟨claim_C10_ranged_bounds.2.1 0.5 none (some 1) (Or.inl rfl),
   claim_C10_ranged_bounds.1 0.5 0 2,
   claim_C10_ranged_bounds.2.2.2 (fun x => ranged_score x none none) rfl 0.5⟩

/- =====================================================================
Claim theorems: pairwise win aggregator (C2, C5)
===================================================================== -/

/-- C2 counterexample: the claim states that the two per-dataset best
t-score series are OUTER-joined, so a dataset with matching runs under
only one condition is never excluded.  pandas `DataFrame.join` defaults to
a LEFT join: on a table whose only dataset `d1` has an `'xgb'` run (best
t-score 9/10) and no `'random_forest'` run, the XGB series contains `d1`
but the joined table is empty and the tally contains no win for any
condition — `d1` is excluded, refuting the claim. -/
theorem claim_C2_counterexample :
    bestSeries (fun r => r.pipeline) "xgb"
        [⟨"d1", some "xgb pipeline", none, 9/10⟩] = [("d1", 9/10)] ∧
    bestSeries (fun r => r.pipeline) "random_forest"
        [⟨"d1", some "xgb pipeline", none, 9/10⟩] = [] ∧
    joinFilled
        (bestSeries (fun r => r.pipeline) "random_forest"
          [⟨"d1", some "xgb pipeline", none, 9/10⟩])
        (bestSeries (fun r => r.pipeline) "xgb"
          [⟨"d1", some "xgb pipeline", none, 9/10⟩]) = [] ∧
    compute_xgb_wins_pct_VI_B [⟨"d1", some "xgb pipeline", none, 9/10⟩] =
      [("total", 0, 0)] := by
  refine ⟨rfl, rfl, rfl, rfl⟩

/-- C2 amended: the win aggregator LEFT-joins (the pandas `join` default)
the second condition's per-dataset best scores onto the first condition's
datasets and fills missing values with 0: the joined table's datasets are
exactly the first condition's datasets — each first-condition dataset is
counted, with the second condition's score filled to 0 when absent — while
a dataset with matching runs under only the second condition is excluded
(it is not a left key). -/
theorem claim_C2_amended_left_join (field : TRow → Option String)
    (tagA tagB : String) (df : List TRow) :
    ((joinFilled (bestSeries field tagA df) (bestSeries field tagB df)).map
        (fun t => t.1)) = (bestSeries field tagA df).map Prod.fst ∧
    (∀ p ∈ bestSeries field tagA df,
      (p.1, p.2, (alookup p.1 (bestSeries field tagB df)).getD 0) ∈
        joinFilled (bestSeries field tagA df) (bestSeries field tagB df)) := by
  constructor
  · simp [joinFilled, List.map_map]
  · intro p hp
    have : (p.1, p.2, (alookup p.1 (bestSeries field tagB df)).getD 0) =
        (fun q => (q.1, q.2, (alookup q.1 (bestSeries field tagB df)).getD 0)) p := rfl
    rw [this]
    exact List.mem_map_of_mem _ hp

theorem claim_C2_amended_witness :
    (("d2", (1/2 : ℚ),
        (alookup "d2" (bestSeries (fun r => r.pipeline) "xgb"
          [⟨"d2", some "random_forest classifier", none, 1/2⟩])).getD 0) ∈
      joinFilled
        (bestSeries (fun r => r.pipeline) "random_forest"
          [⟨"d2", some "random_forest classifier", none, 1/2⟩])
        (bestSeries (fun r => r.pipeline) "xgb"
          [⟨"d2", some "random_forest classifier", none, 1/2⟩])) :=
  (claim_C2_amended_left_join (fun r => r.pipeline) "random_forest" "xgb"
      [⟨"d2", some "random_forest classifier", none, 1/2⟩]).2
    ("d2", 1/2) (List.mem_singleton.mpr rfl)

/-- C5: the winner attribution for a joined row with equal filled scores
(the tie case) is a fixed function of the two condition labels — the
row-wise `np.argmax`/`idxmax` step returns the FIRST column label, i.e.
`'RF'` for the XGB-vs-RF tally and `'GP-SE-EI'` for the Matern-vs-SE
tally; consequently a tied dataset is always attributed to the same
condition, and two runs of the (pure) tally on the same input produce
identical counts.  The conjuncts evaluate: the general tie rule, its two
instantiations, and a full end-to-end tie on each top-level function. -/
theorem claim_C5_tie_attribution :
    (∀ labelA labelB : String, ∀ a : ℚ, winnerLabels labelA labelB a a = some labelA) ∧
    (∀ a : ℚ, winnerLabels "RF" "XGB" a a = some "RF") ∧
    (∀ a : ℚ, winnerLabels "GP-SE-EI" "GP-Matern52-EI" a a = some "GP-SE-EI") ∧
    compute_xgb_wins_pct_VI_B
        [⟨"d1", some "random_forest classifier", none, 1/2⟩,
         ⟨"d1", some "xgb classifier", none, 1/2⟩] =
      [("RF", 1, 1), ("total", 1, 1)] ∧
    compute_matern_wins_pct_VI_C
        [⟨"d1", none, some "gpei", 1/2⟩,
         ⟨"d1", none, some "gpmatern52ei", 1/2⟩] =
      [("GP-SE-EI", 1, 1), ("total", 1, 1)] := by
  have hgen : ∀ labelA labelB : String, ∀ a : ℚ,
      winnerLabels labelA labelB a a = some labelA := by
    intro labelA labelB a
    simp [winnerLabels, argmaxRow]
  refine ⟨hgen, fun a => hgen "RF" "XGB" a,
    fun a => hgen "GP-SE-EI" "GP-Matern52-EI" a, ?_, ?_⟩
  · norm_num [compute_xgb_wins_pct_VI_B, wins_result, bestSeries, datasetsOf,
      fieldMatches, strContainsSub, listStarts, joinFilled, alookup, winnerLabels,
      argmaxRow, value_counts, insertDesc, List.dedup, List.filter, List.filterMap,
      List.foldl, List.foldr, List.count]
  · norm_num [compute_matern_wins_pct_VI_C, wins_result, bestSeries, datasetsOf,
      fieldMatches, strContainsSub, listStarts, joinFilled, alookup, winnerLabels,
      argmaxRow, value_counts, insertDesc, List.dedup, List.filter, List.filterMap,
      List.foldl, List.foldr, List.count]

/- =====================================================================
Helper lemmas for the tuning-delta aggregator
===================================================================== -/

theorem alookup_map_graph {β : Type _} (g : String → β) (ks : List String) (d : String) :
    alookup d (ks.map fun k => (k, g k)) = if d ∈ ks then some (g d) else none := by
  induction ks with
  | nil => simp [alookup]
  | cons k ks ih =>
    simp only [List.map_cons, alookup]
    by_cases h : k = d
    · subst h
      simp
    · rw [if_neg h, ih]
      have h2 : ¬ d = k := fun hdk => h hdk.symm
      simp [List.mem_cons, h2]

theorem alookup_filterMap_graph {β : Type _} (g : String → Option β) (ks : List String)
    (d : String) :
    alookup d (ks.filterMap fun k => (g k).map fun v => (k, v)) =
      if d ∈ ks then g d else none := by
  induction ks with
  | nil => simp [alookup]
  | cons k ks ih =>
    cases hg : g k with
    | none =>
      simp only [List.filterMap_cons, hg, Option.map_none']
      rw [ih]
      by_cases h : d = k
      · subst h
        simp [hg]
      · simp [List.mem_cons, h]
    | some v =>
      simp only [List.filterMap_cons, hg, Option.map_some', alookup]
      by_cases h : k = d
      · subst h
        simp [hg]
      · rw [if_neg h, ih]
        have h2 : ¬ d = k := fun hdk => h hdk.symm
        simp [List.mem_cons, h2]

theorem alookup_map_keyed {β γ : Type _} (f : String × β → γ) (l : List (String × β))
    (d : String) :
    alookup d (l.map fun p => (p.1, f p)) = (l.find? fun p => p.1 == d).map f := by
  induction l with
  | nil => rfl
  | cons p l ih =>
    simp only [List.map_cons, alookup]
    by_cases h : p.1 = d
    · rw [if_pos h, List.find?_cons_of_pos _ (by simp [h])]
      rfl
    · rw [if_neg h, List.find?_cons_of_neg _ (by simp [h]), ih]

theorem find?_filterMap_graph {β : Type _} (g : String → Option β) (ks : List String)
    (d : String) :
    ((ks.filterMap fun k => (g k).map fun v => (k, v)).find? fun p => p.1 == d) =
      if d ∈ ks then (g d).map fun v => (d, v) else none := by
  induction ks with
  | nil => simp
  | cons k ks ih =>
    cases hg : g k with
    | none =>
      simp only [List.filterMap_cons, hg, Option.map_none']
      rw [ih]
      by_cases h : d = k
      · subst h
        simp [hg]
      · simp [List.mem_cons, h]
    | some v =>
      simp only [List.filterMap_cons, hg, Option.map_some']
      by_cases h : k = d
      · subst h
        rw [List.find?_cons_of_pos _ (by simp)]
        simp [hg]
      · rw [List.find?_cons_of_neg _ (by simp [h]), ih]
        have h2 : ¬ d = k := fun hdk => h hdk.symm
        simp [List.mem_cons, h2]

theorem mem_pdatasets_iff {df : List PRow} {d : String} :
    d ∈ pdatasets df ↔ ∃ r ∈ df, r.dataset = d := by
  simp [pdatasets, List.mem_dedup]

theorem mem_pairKeys_iff {df : List PRow} {k : String × String} :
    k ∈ pairKeys df ↔ ∃ r ∈ df, r.dataset = k.1 ∧ r.name = k.2 := by
  simp [pairKeys, List.mem_dedup, Prod.ext_iff]

theorem mem_rowsOf {df : List PRow} {d : String} {r : PRow} :
    r ∈ rowsOf df d ↔ r ∈ df ∧ r.dataset = d := by
  simp [rowsOf]

theorem rowsOf_ne_nil_of_mem {df : List PRow} {d : String} (h : d ∈ pdatasets df) :
    rowsOf df d ≠ [] := by
  rcases mem_pdatasets_iff.mp h with ⟨r, hr, hd⟩
  exact List.ne_nil_of_mem (mem_rowsOf.mpr ⟨hr, hd⟩)

theorem mem_groupRows {df : List PRow} {k : String × String} {r : PRow} :
    r ∈ groupRows df k ↔ r ∈ df ∧ r.dataset = k.1 ∧ r.name = k.2 := by
  simp [groupRows]

theorem groupRows_ne_nil_of_mem {df : List PRow} {k : String × String}
    (h : k ∈ pairKeys df) : groupRows df k ≠ [] := by
  rcases mem_pairKeys_iff.mp h with ⟨r, hr, h1, h2⟩
  exact List.ne_nil_of_mem (mem_groupRows.mpr ⟨hr, h1, h2⟩)

theorem groupRows_eq_filter_name (df : List PRow) (d t : String) :
    groupRows df (d, t) = (rowsOf df d).filter fun r => r.name == t := by
  unfold groupRows rowsOf
  rw [List.filter_filter]
  exact List.filter_congr fun r _ => by rw [Bool.and_comm]

theorem firstByTs_mem : ∀ {l : List PRow} {r : PRow}, firstByTs l = some r → r ∈ l := by
  intro l
  induction l with
  | nil => intro r h; cases h
  | cons a l ih =>
    intro r h
    unfold firstByTs at h
    cases hrec : firstByTs l with
    | none =>
      rw [hrec] at h
      cases h
      exact List.mem_cons_self a l
    | some b =>
      rw [hrec] at h
      dsimp only at h
      by_cases hts : b.ts < a.ts
      · rw [if_pos hts] at h
        cases h
        exact List.mem_cons_of_mem a (ih hrec)
      · rw [if_neg hts] at h
        cases h
        exact List.mem_cons_self a l

theorem firstByTs_isSome_of_ne_nil {l : List PRow} (h : l ≠ []) :
    ∃ r, firstByTs l = some r := by
  cases l with
  | nil => exact absurd rfl h
  | cons a l =>
    unfold firstByTs
    cases firstByTs l with
    | none => exact ⟨a, rfl⟩
    | some b =>
      by_cases hts : b.ts < a.ts
      · exact ⟨b, by dsimp only; rw [if_pos hts]⟩
      · exact ⟨a, by dsimp only; rw [if_neg hts]⟩

theorem foldl_max_const {c : ℚ} : ∀ {l : List ℚ}, (∀ x ∈ l, x = c) → l.foldl max c = c := by
  intro l
  induction l with
  | nil => intro _; rfl
  | cons a l ih =>
    intro h
    rw [List.foldl_cons, h a (List.mem_cons_self a l), max_self]
    exact ih fun x hx => h x (List.mem_cons_of_mem a hx)

theorem foldl_min_const {c : ℚ} : ∀ {l : List ℚ}, (∀ x ∈ l, x = c) → l.foldl min c = c := by
  intro l
  induction l with
  | nil => intro _; rfl
  | cons a l ih =>
    intro h
    rw [List.foldl_cons, h a (List.mem_cons_self a l), min_self]
    exact ih fun x hx => h x (List.mem_cons_of_mem a hx)

theorem max?_all_eq {c : ℚ} {l : List ℚ} (hne : l ≠ []) (h : ∀ x ∈ l, x = c) :
    l.max? = some c := by
  cases l with
  | nil => exact absurd rfl hne
  | cons a l =>
    rw [List.max?_cons', h a (List.mem_cons_self a l),
      foldl_max_const fun x hx => h x (List.mem_cons_of_mem a hx)]

theorem min?_all_eq {c : ℚ} {l : List ℚ} (hne : l ≠ []) (h : ∀ x ∈ l, x = c) :
    l.min? = some c := by
  cases l with
  | nil => exact absurd rfl hne
  | cons a l =>
    rw [List.min?_cons', h a (List.mem_cons_self a l),
      foldl_min_const fun x hx => h x (List.mem_cons_of_mem a hx)]

theorem max?_isSome_of_ne_nil {l : List ℚ} (h : l ≠ []) : ∃ x, l.max? = some x := by
  cases l with
  | nil => exact absurd rfl h
  | cons a l => exact ⟨_, List.max?_cons'⟩

theorem min?_isSome_of_ne_nil {l : List ℚ} (h : l ≠ []) : ∃ x, l.min? = some x := by
  cases l with
  | nil => exact absurd rfl h
  | cons a l => exact ⟨_, List.min?_cons'⟩

theorem qmean_const {l : List ℚ} {c : ℚ} (hne : l ≠ []) (h : ∀ x ∈ l, x = c) :
    qmean l = c := by
  have hrep := List.eq_replicate_of_mem h
  have hlen : (l.length : ℚ) ≠ 0 := by
    simpa using hne
  rw [qmean, hrep, List.sum_replicate, List.length_replicate, nsmul_eq_mul]
  field_simp

theorem sum_sq_eq_zero {μ : ℚ} :
    ∀ {l : List ℚ}, (l.map fun x => (x - μ) ^ 2).sum = 0 → ∀ x ∈ l, x = μ := by
  intro l
  induction l with
  | nil => intro _ x hx; cases hx
  | cons a l ih =>
    intro h x hx
    rw [List.map_cons, List.sum_cons] at h
    have hrest : 0 ≤ (l.map fun x => (x - μ) ^ 2).sum :=
      List.sum_nonneg fun y hy => by
        rcases List.mem_map.mp hy with ⟨z, _, rfl⟩
        positivity
    have hhead : 0 ≤ (a - μ) ^ 2 := by positivity
    have h1 : (a - μ) ^ 2 = 0 := by linarith
    have h2 : (l.map fun x => (x - μ) ^ 2).sum = 0 := by linarith
    rcases List.mem_cons.mp hx with rfl | hx2
    · have := pow_eq_zero_iff (n := 2) (by norm_num) |>.mp h1
      linarith [sub_eq_zero.mp this]
    · exact ih h2 x hx2

theorem sampleVar_length {l : List ℚ} {v : ℚ} (h : sampleVar l = some v) :
    2 ≤ l.length := by
  unfold sampleVar at h
  by_cases hlen : l.length < 2
  · rw [if_pos hlen] at h; cases h
  · omega

theorem sampleVar_zero_all_eq {l : List ℚ} (h : sampleVar l = some 0) :
    ∀ x ∈ l, x = qmean l := by
  have hlen := sampleVar_length h
  unfold sampleVar at h
  rw [if_neg (by omega)] at h
  have hden : ((l.length : ℚ) - 1) ≠ 0 := by
    have : (2 : ℚ) ≤ (l.length : ℚ) := by exact_mod_cast hlen
    linarith
  have hsum : (l.map fun x => (x - qmean l) ^ 2).sum = 0 := by
    have := Option.some.inj h
    field_simp at this
    exact this
  exact sum_sq_eq_zero hsum

theorem sampleVar_const {l : List ℚ} {c : ℚ} (hlen : 2 ≤ l.length)
    (h : ∀ x ∈ l, x = c) : sampleVar l = some 0 := by
  unfold sampleVar
  rw [if_neg (by omega)]
  have hmean : qmean l = c := qmean_const (by intro hnil; rw [hnil] at hlen; simp at hlen) h
  have hmap : (l.map fun x => (x - qmean l) ^ 2).sum = 0 := by
    have : ∀ y ∈ l.map fun x => (x - qmean l) ^ 2, y = 0 := by
      intro y hy
      rcases List.mem_map.mp hy with ⟨z, hz, rfl⟩
      rw [h z hz, hmean]
      ring
    rw [List.eq_replicate_of_mem this, List.sum_replicate, smul_zero]
  rw [hmap, zero_div]

theorem sampleStd_zero_iff {l : List ℚ} :
    sampleStd l = some 0 ↔ sampleVar l = some 0 := by
  unfold sampleStd
  cases hv : sampleVar l with
  | none => simp
  | some v =>
    simp only [Option.map_some', Option.some.injEq]
    constructor
    · intro hs
      have hnn : (0 : ℝ) ≤ (v : ℝ) := by
        by_contra hneg
        push_neg at hneg
        -- a negative sample variance is impossible: the sum of squares is nonneg
        have hlen := sampleVar_length hv
        unfold sampleVar at hv
        rw [if_neg (by omega)] at hv
        have hvv := Option.some.inj hv
        have hsumnn : 0 ≤ (l.map fun x => (x - qmean l) ^ 2).sum :=
          List.sum_nonneg fun y hy => by
            rcases List.mem_map.mp hy with ⟨z, _, rfl⟩
            positivity
        have hdenpos : 0 < ((l.length : ℚ) - 1) := by
          have : (2 : ℚ) ≤ (l.length : ℚ) := by exact_mod_cast hlen
          linarith
        have : 0 ≤ v := by
          rw [← hvv]
          positivity
        have : (0 : ℝ) ≤ (v : ℝ) := by exact_mod_cast this
        linarith
      have := (Real.sqrt_eq_zero hnn).mp hs
      exact_mod_cast this
    · intro hv0
      rw [hv0]
      simp [Real.sqrt_zero]

theorem inner_list_eq (df : List PRow) (d : String) :
    ∀ P' : List (String × String), (∀ k ∈ P', groupRows df k ≠ []) →
    (((P'.filterMap fun k => (firstByTs (groupRows df k)).map fun r => (k, r.score)).filter
        fun p => !(strContainsSub p.1.2 "trivial")).filterMap fun p =>
      if p.1.1 == d then some p.2 else none)
    = ((P'.filter fun k => k.1 == d && !(strContainsSub k.2 "trivial")).map Prod.snd).filterMap
        (tmplFirstScore df d) := by
  intro P'
  induction P' with
  | nil => intro _; rfl
  | cons k P' ih =>
    intro hne
    obtain ⟨r, hr⟩ := firstByTs_isSome_of_ne_nil (hne k (List.mem_cons_self k P'))
    have ihr := ih fun x hx => hne x (List.mem_cons_of_mem k hx)
    simp only [List.filterMap_cons, hr, Option.map_some']
    by_cases ht : strContainsSub k.2 "trivial" = true
    · rw [List.filter_cons_of_neg (by simp [ht]), List.filter_cons_of_neg (by simp [ht])]
      exact ihr
    · rw [Bool.not_eq_true] at ht
      by_cases hd : k.1 = d
      · rw [List.filter_cons_of_pos (by simp [ht]), List.filter_cons_of_pos (by simp [ht, hd])]
        simp only [List.filterMap_cons, List.map_cons]
        rw [if_pos (by simp [hd])]
        have hk : (d, k.2) = k := by
          obtain ⟨k1, k2⟩ := k
          simp only at hd
          rw [hd]
        have hts : tmplFirstScore df d k.2 = some r.score := by
          rw [tmplFirstScore, hk, hr]
          rfl
        rw [hts, ihr]
      · rw [List.filter_cons_of_pos (by simp [ht]), List.filter_cons_of_neg (by simp [hd])]
        simp only [List.filterMap_cons]
        rw [if_neg (by simp [hd])]
        exact ihr

theorem mem_codeTemplates {df : List PRow} {d t : String} :
    t ∈ codeTemplates df d ↔
      (d, t) ∈ pairKeys df ∧ strContainsSub t "trivial" = false := by
  unfold codeTemplates
  simp only [List.mem_map, List.mem_filter, Bool.and_eq_true, beq_iff_eq,
    Bool.not_eq_true']
  constructor
  · rintro ⟨k, ⟨hk, h1, h2⟩, rfl⟩
    have : (d, k.2) = k := by
      obtain ⟨k1, k2⟩ := k
      simp only at h1
      rw [h1]
    rw [this]
    exact ⟨hk, h2⟩
  · rintro ⟨hk, h2⟩
    exact ⟨(d, t), ⟨hk, rfl, h2⟩, rfl⟩

theorem mem_specTemplates {df : List PRow} {d t : String} :
    t ∈ specTemplates df d ↔
      (d, t) ∈ pairKeys df ∧ strContainsSub t "trivial" = false := by
  unfold specTemplates dsTemplates
  rw [List.mem_filter, List.mem_dedup, mem_pairKeys_iff]
  simp only [List.mem_map, Bool.not_eq_true']
  constructor
  · rintro ⟨⟨r, hr, rfl⟩, h2⟩
    exact ⟨⟨r, (mem_rowsOf.mp hr).1, (mem_rowsOf.mp hr).2, rfl⟩, h2⟩
  · rintro ⟨⟨r, hr, h1, h2⟩, h3⟩
    exact ⟨⟨r, mem_rowsOf.mpr ⟨hr, h1⟩, h2.symm ▸ rfl⟩, h3⟩

theorem codeTemplates_nodup (df : List PRow) (d : String) :
    (codeTemplates df d).Nodup := by
  unfold codeTemplates
  refine List.Nodup.map_on ?_ (List.Nodup.filter _ (by unfold pairKeys; exact List.nodup_dedup _))
  · intro x hx y hy hxy
    rw [List.mem_filter] at hx hy
    have hx1 : x.1 = d := by
      have := hx.2
      simp only [Bool.and_eq_true, beq_iff_eq] at this
      exact this.1
    have hy1 : y.1 = d := by
      have := hy.2
      simp only [Bool.and_eq_true, beq_iff_eq] at this
      exact this.1
    obtain ⟨x1, x2⟩ := x
    obtain ⟨y1, y2⟩ := y
    simp only at hx1 hy1 hxy
    rw [hx1, hy1, hxy]

theorem specTemplates_nodup (df : List PRow) (d : String) :
    (specTemplates df d).Nodup :=
  (List.nodup_dedup _).filter _

theorem codeTemplates_perm (df : List PRow) (d : String) :
    (codeTemplates df d).Perm (specTemplates df d) :=
  (List.perm_ext_iff_of_nodup (codeTemplates_nodup df d) (specTemplates_nodup df d)).mpr
    fun _t => mem_codeTemplates.trans mem_specTemplates.symm

theorem dsFirstScores_eq (df : List PRow) (d : String) :
    dsFirstScores df d = (specTemplates df d).filterMap (tmplFirstScore df d) := by
  unfold dsFirstScores
  have h : ∀ t : String,
      ((firstByTs ((rowsOf df d).filter fun r => r.name == t)).map PRow.score) =
        tmplFirstScore df d t := by
    intro t
    rw [tmplFirstScore, groupRows_eq_filter_name]
  calc ((dsTemplates df d).filter fun t => !(strContainsSub t "trivial")).filterMap
        (fun t => (firstByTs ((rowsOf df d).filter fun r => r.name == t)).map PRow.score)
      = ((dsTemplates df d).filter fun t => !(strContainsSub t "trivial")).filterMap
        (tmplFirstScore df d) := List.filterMap_congr fun t _ => h t
    _ = (specTemplates df d).filterMap (tmplFirstScore df d) := rfl

theorem alookup_default_scores (df : List PRow) (d : String) :
    alookup d (default_scores df) = dsDefault df d := by
  have hgrp : ∀ k ∈ pairKeys df, groupRows df k ≠ [] :=
    fun k hk => groupRows_ne_nil_of_mem hk
  have hinner : ((nontrivialDefaults df).filterMap fun p =>
        if p.1.1 == d then some p.2 else none)
      = (codeTemplates df d).filterMap (tmplFirstScore df d) :=
    inner_list_eq df d (pairKeys df) hgrp
  have hperm : ((codeTemplates df d).filterMap (tmplFirstScore df d)).Perm
      ((specTemplates df d).filterMap (tmplFirstScore df d)) :=
    (codeTemplates_perm df d).filterMap _
  have hlook := alookup_map_graph
    (fun d => qmean ((nontrivialDefaults df).filterMap fun p =>
      if p.1.1 == d then some p.2 else none))
    (((nontrivialDefaults df).map fun p => p.1.1).dedup) d
  rw [default_scores] at *
  rw [hlook]
  have hmem_iff : d ∈ ((nontrivialDefaults df).map fun p => p.1.1).dedup ↔
      ((nontrivialDefaults df).filterMap fun p =>
        if p.1.1 == d then some p.2 else none) ≠ [] := by
    rw [List.mem_dedup, Ne, List.filterMap_eq_nil_iff]
    simp only [List.mem_map]
    constructor
    · rintro ⟨p, hp, hpd⟩ hall
      have := hall p hp
      rw [if_pos (by simp [hpd])] at this
      cases this
    · intro h
      by_contra hno
      push_neg at hno
      apply h
      intro p hp
      rw [if_neg]
      simp only [beq_iff_eq]
      exact fun hc => hno p hp hc
  have hlen : ((nontrivialDefaults df).filterMap fun p =>
      if p.1.1 == d then some p.2 else none).length = (dsFirstScores df d).length := by
    rw [hinner, dsFirstScores_eq]
    exact hperm.length_eq
  by_cases hmem : d ∈ ((nontrivialDefaults df).map fun p => p.1.1).dedup
  · rw [if_pos hmem]
    have hne : dsFirstScores df d ≠ [] := by
      intro hnil
      apply hmem_iff.mp hmem
      have : ((nontrivialDefaults df).filterMap fun p =>
          if p.1.1 == d then some p.2 else none).length = 0 := by
        rw [hlen, hnil]
        rfl
      exact List.length_eq_zero.mp this
    rw [dsDefault, if_neg (by simpa [List.isEmpty_iff] using hne)]
    congr 1
    rw [qmean, qmean, hinner, dsFirstScores_eq, hperm.sum_eq, hperm.length_eq]
  · rw [if_neg hmem]
    have hnil : dsFirstScores df d = [] := by
      have h0 : ((nontrivialDefaults df).filterMap fun p =>
          if p.1.1 == d then some p.2 else none) = [] := by
        by_contra hne
        exact hmem (hmem_iff.mpr hne)
      rw [← List.length_eq_zero, ← hlen, h0]
      rfl
    rw [dsDefault, if_pos (by simpa [List.isEmpty_iff] using hnil)]

theorem min_max_scores_eq (df : List PRow) :
    min_max_scores df =
      (pdatasets df).filterMap fun k => (minMaxOf df k).map fun v => (k, v) := by
  unfold min_max_scores minMaxOf
  refine List.filterMap_congr fun k _ => ?_
  cases (scoresOf df k).min? <;> cases (scoresOf df k).max? <;> rfl

theorem scoresOf_ne_nil {df : List PRow} {d : String} (h : d ∈ pdatasets df) :
    scoresOf df d ≠ [] := by
  have := rowsOf_ne_nil_of_mem h
  unfold scoresOf
  simpa using this

theorem minMaxOf_isSome {df : List PRow} {d : String} (h : d ∈ pdatasets df) :
    ∃ mn mx, minMaxOf df d = some (mn, mx) ∧
      (scoresOf df d).min? = some mn ∧ (scoresOf df d).max? = some mx := by
  obtain ⟨mn, hmn⟩ := min?_isSome_of_ne_nil (scoresOf_ne_nil h)
  obtain ⟨mx, hmx⟩ := max?_isSome_of_ne_nil (scoresOf_ne_nil h)
  exact ⟨mn, mx, by rw [minMaxOf, hmn, hmx], hmn, hmx⟩

theorem alookup_sds (df : List PRow) (d : String) :
    alookup d (sds df) =
      if d ∈ pdatasets df then some (sampleStd (scoresOf df d)) else none :=
  alookup_map_graph _ _ _

theorem adjustments_eq (df : List PRow) :
    adjustments df = (pdatasets df).filterMap fun k => (dsAdj df k).map fun v => (k, v) := by
  unfold adjustments dsAdj
  refine List.filterMap_congr fun k _ => ?_
  cases (rowsOf df k).head? <;> rfl

theorem alookup_adjustments (df : List PRow) (d : String) :
    alookup d (adjustments df) = if d ∈ pdatasets df then dsAdj df d else none := by
  rw [adjustments_eq]
  exact alookup_filterMap_graph _ _ _

theorem mem_min_max_keys {df : List PRow} {p : String × ℚ × ℚ}
    (h : p ∈ min_max_scores df) : p.1 ∈ pdatasets df := by
  rw [min_max_scores_eq] at h
  rcases List.mem_filterMap.mp h with ⟨k, hk, hmap⟩
  rcases Option.map_eq_some'.mp hmap with ⟨v, _, rfl⟩
  exact hk

theorem tuning_results_characterization (df : List PRow) (d : String)
    (h : d ∈ pdatasets df) :
    alookup d (get_tuning_results_df df) = some (specTuningSummary df d) := by
  obtain ⟨mn, mx, hmm, hmn, hmx⟩ := minMaxOf_isSome h
  rw [get_tuning_results_df, alookup_map_keyed, min_max_scores_eq,
    find?_filterMap_graph, if_pos h, hmm]
  simp only [Option.map_some']
  congr 1
  unfold summaryRow specTuningSummary
  simp only [alookup_default_scores, alookup_sds, alookup_adjustments, if_pos h,
    Option.join, Option.some_bind, id_eq, hmn, hmx, Option.getD_some]

theorem evalDelta_none_dflt (adj : Option ℤ) (best : ℚ) (sd : Option ℝ) :
    evalDelta adj best none sd = FVal.nan := by
  unfold evalDelta
  cases adj <;> cases sd <;> rfl

theorem evalDelta_none_sd (adj : Option ℤ) (best : ℚ) (dflt : Option ℚ) :
    evalDelta adj best dflt none = FVal.nan := by
  unfold evalDelta
  cases adj <;> cases dflt <;> rfl

theorem evalDelta_zero_sd (adj : Option ℤ) (c : ℚ) :
    evalDelta adj c (some c) (some 0) = FVal.nan := by
  cases adj with
  | none => rfl
  | some a =>
    unfold evalDelta
    dsimp only
    rw [if_pos rfl, if_pos (by ring)]

theorem dsFirstScores_subset {df : List PRow} {d : String} :
    ∀ x ∈ dsFirstScores df d, x ∈ scoresOf df d := by
  intro x hx
  unfold dsFirstScores at hx
  rcases List.mem_filterMap.mp hx with ⟨t, _, hfs⟩
  rcases Option.map_eq_some'.mp hfs with ⟨r, hr, rfl⟩
  exact List.mem_map_of_mem _ (List.mem_of_mem_filter (firstByTs_mem hr))

theorem dsDefault_all_eq {df : List PRow} {d : String} {c : ℚ} {dv : ℚ}
    (hall : ∀ x ∈ scoresOf df d, x = c) (h : dsDefault df d = some dv) : dv = c := by
  unfold dsDefault at h
  by_cases he : (dsFirstScores df d).isEmpty
  · rw [if_pos he] at h
    cases h
  · rw [if_neg he] at h
    have hne : dsFirstScores df d ≠ [] := by
      simpa [List.isEmpty_iff] using he
    have hfc : ∀ x ∈ dsFirstScores df d, x = c :=
      fun x hx => hall x (dsFirstScores_subset x hx)
    exact (Option.some.inj h).symm.trans (qmean_const hne hfc)

theorem specSummary_delta_nan {df : List PRow} {d : String} (hmem : d ∈ pdatasets df)
    (hcase : sampleStd (scoresOf df d) = some 0 ∨ dsDefault df d = none) :
    (specTuningSummary df d).delta = FVal.nan := by
  rcases hcase with hsd | hdflt
  · have hvar := sampleStd_zero_iff.mp hsd
    have hall := sampleVar_zero_all_eq hvar
    have hne := scoresOf_ne_nil hmem
    have hmn := min?_all_eq hne hall
    have hmx := max?_all_eq hne hall
    unfold specTuningSummary
    dsimp only
    rw [hmn, hmx]
    simp only [Option.getD_some, ite_self]
    cases hd : dsDefault df d with
    | none => exact evalDelta_none_dflt _ _ _
    | some dv =>
      have hdvc : dv = qmean (scoresOf df d) := dsDefault_all_eq hall hd
      subst hdvc
      rw [hsd]
      exact evalDelta_zero_sd _ _
  · unfold specTuningSummary
    dsimp only
    rw [hdflt]
    exact evalDelta_none_dflt _ _ _

theorem dedup_const {m : List String} {d0 : String} (hm : ∀ x ∈ m, x = d0)
    (hne : m ≠ []) : m.dedup = [d0] := by
  induction m with
  | nil => exact absurd rfl hne
  | cons a m ih =>
    have ha : a = d0 := hm a (List.mem_cons_self a m)
    subst ha
    cases m with
    | nil => rfl
    | cons b m2 =>
      have hb : b = a := hm b (List.mem_cons_of_mem a (List.mem_cons_self b m2))
      rw [List.dedup_cons_of_mem (hb ▸ List.mem_cons_self b m2)]
      exact ih (fun x hx => hm x (List.mem_cons_of_mem a hx)) (by simp)

theorem dedup_append_fresh {l m : List String} {d0 : String}
    (hm : ∀ x ∈ m, x = d0) (hne : m ≠ []) (hnd : d0 ∉ l) :
    (l ++ m).dedup = l.dedup ++ [d0] := by
  induction l with
  | nil =>
    simp only [List.nil_append, List.dedup_nil]
    exact dedup_const hm hne
  | cons a l ihl =>
    have hnd2 : d0 ∉ l := fun hc => hnd (List.mem_cons_of_mem a hc)
    have hna : a ≠ d0 := fun hc => hnd (hc ▸ List.mem_cons_self a l)
    have hmem_iff : a ∈ l ++ m ↔ a ∈ l := by
      rw [List.mem_append]
      constructor
      · rintro (h | h)
        · exact h
        · exact absurd (hm a h) hna
      · exact Or.inl
    by_cases hal : a ∈ l
    · rw [List.cons_append, List.dedup_cons_of_mem (hmem_iff.mpr hal),
        List.dedup_cons_of_mem hal]
      exact ihl hnd2
    · rw [List.cons_append, List.dedup_cons_of_not_mem (fun hc => hal (hmem_iff.mp hc)),
        List.dedup_cons_of_not_mem hal, ihl hnd2, List.cons_append]

theorem pdatasets_append_fresh {df B : List PRow} {d0 : String}
    (hB : ∀ r ∈ B, r.dataset = d0) (hne : B ≠ []) (hfresh : d0 ∉ pdatasets df) :
    pdatasets (df ++ B) = pdatasets df ++ [d0] := by
  unfold pdatasets at *
  rw [List.map_append]
  refine dedup_append_fresh ?_ (by simpa using hne) ?_
  · intro x hx
    rcases List.mem_map.mp hx with ⟨r, hr, rfl⟩
    exact hB r hr
  · exact fun hmem => hfresh (List.mem_dedup.mpr hmem)

theorem rowsOf_append_fresh {df B : List PRow} {d0 d : String}
    (hB : ∀ r ∈ B, r.dataset = d0) (hd : d ≠ d0) :
    rowsOf (df ++ B) d = rowsOf df d := by
  unfold rowsOf
  rw [List.filter_append]
  have h2 : B.filter (fun r => r.dataset == d) = [] := by
    rw [List.filter_eq_nil_iff]
    intro r hr
    simp only [beq_iff_eq, hB r hr]
    exact fun hc => hd hc.symm
  rw [h2, List.append_nil]

theorem rowsOf_append_self {df B : List PRow} {d0 : String}
    (hB : ∀ r ∈ B, r.dataset = d0) (hfresh : d0 ∉ pdatasets df) :
    rowsOf (df ++ B) d0 = B := by
  unfold rowsOf
  rw [List.filter_append]
  have h1 : df.filter (fun r => r.dataset == d0) = [] := by
    rw [List.filter_eq_nil_iff]
    intro r hr
    simp only [beq_iff_eq]
    exact fun hc => hfresh (mem_pdatasets_iff.mpr ⟨r, hr, hc⟩)
  have h2 : B.filter (fun r => r.dataset == d0) = B := by
    rw [List.filter_eq_self]
    intro r hr
    simp [hB r hr]
  rw [h1, h2, List.nil_append]

theorem summaryRow_congr {dfa dfb : List PRow} {p : String × ℚ × ℚ}
    (hrows : rowsOf dfa p.1 = rowsOf dfb p.1)
    (ha : p.1 ∈ pdatasets dfa) (hb : p.1 ∈ pdatasets dfb) :
    summaryRow dfa p = summaryRow dfb p := by
  have hsc : scoresOf dfa p.1 = scoresOf dfb p.1 := by
    unfold scoresOf
    rw [hrows]
  have hdef : alookup p.1 (default_scores dfa) = alookup p.1 (default_scores dfb) := by
    rw [alookup_default_scores, alookup_default_scores]
    unfold dsDefault dsFirstScores dsTemplates
    rw [hrows]
  have hsd : alookup p.1 (sds dfa) = alookup p.1 (sds dfb) := by
    rw [alookup_sds, alookup_sds, if_pos ha, if_pos hb, hsc]
  have hadj : alookup p.1 (adjustments dfa) = alookup p.1 (adjustments dfb) := by
    rw [alookup_adjustments, alookup_adjustments, if_pos ha, if_pos hb]
    unfold dsAdj
    rw [hrows]
  unfold summaryRow
  rw [hdef, hsd, hadj]

/- =====================================================================
Claim theorems: tuning-delta aggregator (C3, C6)
===================================================================== -/

/-- C3: the tuning-delta aggregator computes, per dataset: `default_score`
as the mean over non-trivial `(dataset, template)` groups of the
earliest-by-`ts` score; `sd` as the sample standard deviation of all of
the dataset's raw scores; `adjustment` as `-1` iff the dataset's first
metric name contains `"Error"`; `best_score` as max (resp. min) score for
adjustment `+1` (resp. `-1`); and
`delta = adjustment * (best_score - default_score) / sd` — stated as: the
aggregator's row for every dataset equals the spec-side per-dataset
summary built directly from those formulas, and on the synthetic dataset
with scores `[0.5, 0.7, 0.9]` (one non-trivial template, score-style
metric) the result is `default = 0.5`, `best = 0.9`,
`sd = sqrt(std²) = sqrt(1/25)`, `delta = (0.9 - 0.5)/sd = 2` exactly. -/
theorem claim_C3_tuning_delta :
    (∀ (df : List PRow) (d : String), d ∈ pdatasets df →
      alookup d (get_tuning_results_df df) = some (specTuningSummary df d)) ∧
    sampleVar [1/2, 7/10, 9/10] = some (1/25) ∧
    (specTuningSummary pipelinesC3 "syn").default_score = some (1/2) ∧
    (specTuningSummary pipelinesC3 "syn").adjustment = some 1 ∧
    (specTuningSummary pipelinesC3 "syn").min_score = 1/2 ∧
    (specTuningSummary pipelinesC3 "syn").max_score = 9/10 ∧
    (specTuningSummary pipelinesC3 "syn").best_score = 9/10 ∧
    (specTuningSummary pipelinesC3 "syn").sd = some (Real.sqrt ((1/25 : ℚ) : ℝ)) ∧
    (specTuningSummary pipelinesC3 "syn").delta =
      FVal.num ((((9/10 : ℚ) : ℝ) - ((1/2 : ℚ) : ℝ)) / Real.sqrt ((1/25 : ℚ) : ℝ)) ∧
    (specTuningSummary pipelinesC3 "syn").delta = FVal.num 2 := by
  have hsc : scoresOf pipelinesC3 "syn" = [1/2, 7/10, 9/10] := rfl
  have hvar : sampleVar [1/2, 7/10, 9/10] = some (1/25) := by
    norm_num [sampleVar, qmean, List.sum_cons, List.sum_nil]
  have hmin : (scoresOf pipelinesC3 "syn").min? = some (1/2) := by
    rw [hsc, List.min?_cons']
    norm_num [List.foldl, min_def]
  have hmax : (scoresOf pipelinesC3 "syn").max? = some (9/10) := by
    rw [hsc, List.max?_cons']
    norm_num [List.foldl, max_def]
  have hadj : dsAdj pipelinesC3 "syn" = some 1 := rfl
  have hfs : dsFirstScores pipelinesC3 "syn" = [1/2] := rfl
  have hdflt : dsDefault pipelinesC3 "syn" = some (1/2) := by
    rw [dsDefault, hfs, if_neg (by simp)]
    norm_num [qmean, List.sum_cons, List.sum_nil]
  have hsd : sampleStd (scoresOf pipelinesC3 "syn") =
      some (Real.sqrt ((1/25 : ℚ) : ℝ)) := by
    rw [hsc, sampleStd, hvar]
    rfl
  have hsqrt : Real.sqrt ((1/25 : ℚ) : ℝ) = 1/5 := by
    rw [show ((1/25 : ℚ) : ℝ) = (1/5 : ℝ) ^ 2 by norm_num,
      Real.sqrt_sq (by norm_num)]
  have hsqrt_ne : Real.sqrt ((1/25 : ℚ) : ℝ) ≠ 0 := by
    rw [hsqrt]
    norm_num
  have hbest : (specTuningSummary pipelinesC3 "syn").best_score = 9/10 := by
    unfold specTuningSummary
    dsimp only
    rw [hadj, if_neg (by simp), hmax]
    rfl
  have hdelta : (specTuningSummary pipelinesC3 "syn").delta =
      FVal.num ((((9/10 : ℚ) : ℝ) - ((1/2 : ℚ) : ℝ)) / Real.sqrt ((1/25 : ℚ) : ℝ)) := by
    unfold specTuningSummary
    dsimp only
    rw [hadj, hdflt, hsd, if_neg (by simp), hmax]
    simp only [Option.getD_some]
    unfold evalDelta
    dsimp only
    rw [if_neg hsqrt_ne]
    congr 1
    push_cast
    ring
  refine ⟨fun df d h => tuning_results_characterization df d h, hvar, ?_, hadj, ?_, ?_,
    hbest, ?_, hdelta, ?_⟩
  · unfold specTuningSummary
    dsimp only
    rw [hdflt]
  · unfold specTuningSummary
    dsimp only
    rw [hmin]
    rfl
  · unfold specTuningSummary
    dsimp only
    rw [hmax]
    rfl
  · unfold specTuningSummary
    dsimp only
    rw [hsd]
  · rw [hdelta, hsqrt]
    congr 1
    push_cast
    norm_num

theorem claim_C3_witness :
    alookup "syn" (get_tuning_results_df pipelinesC3) =
      some (specTuningSummary pipelinesC3 "syn") :=
  claim_C3_tuning_delta.1 pipelinesC3 "syn"
    (by rw [show pdatasets pipelinesC3 = ["syn"] from rfl]; exact List.mem_singleton.mpr rfl)

/-- C6: for every dataset whose raw scores have sample standard deviation 0
(or whose `default_score` is missing because no non-trivial group exists),
the aggregator's `delta` is the missing value `NaN` — produced, not
raised — and the downstream consumer
`compute_tuning_improvement_sds_VI_A` (`delta.dropna().mean()`) drops such
deltas before averaging: appending to any table a fresh dataset whose
scores are all equal (so its `delta` is `NaN`) leaves the computed
statistic unchanged. -/
theorem claim_C6_missing_delta :
    (∀ (df : List PRow) (d : String), d ∈ pdatasets df →
      (sampleStd (scoresOf df d) = some 0 ∨ dsDefault df d = none) →
      ∃ s, alookup d (get_tuning_results_df df) = some s ∧ s.delta = FVal.nan) ∧
    (∀ (df B : List PRow) (d0 : String), B ≠ [] →
      (∀ r ∈ B, r.dataset = d0) → d0 ∉ pdatasets df →
      (∀ r ∈ B, ∀ r2 ∈ B, r.score = r2.score) →
      compute_tuning_improvement_sds_VI_A (df ++ B) =
        compute_tuning_improvement_sds_VI_A df) := by
  constructor
  · intro df d hmem hcase
    exact ⟨specTuningSummary df d, tuning_results_characterization df d hmem,
      specSummary_delta_nan hmem hcase⟩
  · intro df B d0 hne hB hfresh hconst
    obtain ⟨r0, B2, hB0⟩ : ∃ r0 B2, B = r0 :: B2 := by
      cases B with
      | nil => exact absurd rfl hne
      | cons a b => exact ⟨a, b, rfl⟩
    have hr0 : r0 ∈ B := hB0 ▸ List.mem_cons_self r0 B2
    have hc : ∀ r ∈ B, r.score = r0.score := fun r hr => hconst r hr r0 hr0
    have hpd := pdatasets_append_fresh hB hne hfresh
    have hd0mem : d0 ∈ pdatasets (df ++ B) := by
      rw [hpd]
      exact List.mem_append_right _ (List.mem_singleton.mpr rfl)
    have hscB : scoresOf (df ++ B) d0 = B.map PRow.score := by
      unfold scoresOf
      rw [rowsOf_append_self hB hfresh]
    have hallc2 : ∀ x ∈ B.map PRow.score, x = r0.score := by
      intro x hx
      rcases List.mem_map.mp hx with ⟨r, hr, rfl⟩
      exact hc r hr
    have hallcFull : ∀ x ∈ scoresOf (df ++ B) d0, x = r0.score := by
      rw [hscB]
      exact hallc2
    have hscne : B.map PRow.score ≠ [] := by simpa using hne
    have hmnB : (scoresOf (df ++ B) d0).min? = some r0.score := by
      rw [hscB]
      exact min?_all_eq hscne hallc2
    have hmxB : (scoresOf (df ++ B) d0).max? = some r0.score := by
      rw [hscB]
      exact max?_all_eq hscne hallc2
    have hmm_new : minMaxOf (df ++ B) d0 = some (r0.score, r0.score) := by
      unfold minMaxOf
      rw [hmnB, hmxB]
    have hmmlist : min_max_scores (df ++ B) =
        min_max_scores df ++ [(d0, (r0.score, r0.score))] := by
      rw [min_max_scores_eq (df ++ B), hpd, List.filterMap_append]
      congr 1
      · rw [min_max_scores_eq df]
        refine List.filterMap_congr fun k hk => ?_
        have hkd : k ≠ d0 := fun hkk => hfresh (hkk ▸ hk)
        unfold minMaxOf scoresOf
        rw [rowsOf_append_fresh hB hkd]
      · simp [List.filterMap_cons, hmm_new]
    have hold : ∀ p ∈ min_max_scores df, summaryRow (df ++ B) p = summaryRow df p := by
      intro p hp
      have hkmem : p.1 ∈ pdatasets df := mem_min_max_keys hp
      have hkd : p.1 ≠ d0 := fun hkk => hfresh (hkk ▸ hkmem)
      have hamem : p.1 ∈ pdatasets (df ++ B) := by
        rw [hpd]
        exact List.mem_append_left _ hkmem
      exact summaryRow_congr (rowsOf_append_fresh hB hkd) hamem hkmem
    have hnew : (summaryRow (df ++ B) (d0, (r0.score, r0.score))).delta = FVal.nan := by
      unfold summaryRow
      dsimp only
      rw [ite_self, alookup_default_scores, alookup_sds, if_pos hd0mem]
      simp only [Option.join, Option.some_bind, id_eq]
      cases hdd : dsDefault (df ++ B) d0 with
      | none => exact evalDelta_none_dflt _ _ _
      | some dv =>
        have hdvc : dv = r0.score := dsDefault_all_eq hallcFull hdd
        subst hdvc
        by_cases hlen : (scoresOf (df ++ B) d0).length < 2
        · have hsdnone : sampleStd (scoresOf (df ++ B) d0) = none := by
            unfold sampleStd sampleVar
            rw [if_pos hlen]
            rfl
          rw [hsdnone]
          exact evalDelta_none_sd _ _ _
        · have hvar0 : sampleVar (scoresOf (df ++ B) d0) = some 0 :=
            sampleVar_const (by omega) hallcFull
          have hsd0 : sampleStd (scoresOf (df ++ B) d0) = some 0 := by
            unfold sampleStd
            rw [hvar0]
            simp [Real.sqrt_zero]
          rw [hsd0]
          exact evalDelta_zero_sd _ _
    unfold compute_tuning_improvement_sds_VI_A
    congr 1
    unfold get_tuning_results_df
    rw [hmmlist, List.map_append, List.map_append, List.filter_append]
    have hnewlist : (([(d0, (r0.score, r0.score))].map fun p =>
        (p.1, summaryRow (df ++ B) p)).map (fun p => p.2.delta)).filter
          (fun v => !v.isNan) = [] := by
      simp only [List.map_cons, List.map_nil]
      rw [List.filter]
      rw [hnew]
      rfl
    rw [hnewlist, List.append_nil, List.map_map, List.map_map]
    congr 1
    refine List.map_congr_left fun p hp => ?_
    simp only [Function.comp]
    rw [hold p hp]

theorem claim_C6_witness :
    (∃ s, alookup "dz" (get_tuning_results_df
        [⟨"dz", "t", 1/3, 0, "f1"⟩, ⟨"dz", "t", 1/3, 1, "f1"⟩]) = some s ∧
      s.delta = FVal.nan) ∧
    compute_tuning_improvement_sds_VI_A (pipelinesC3 ++
        [⟨"dz", "t", 1/3, 0, "f1"⟩, ⟨"dz", "t", 1/3, 1, "f1"⟩]) =
      compute_tuning_improvement_sds_VI_A pipelinesC3 := by
  constructor
  · refine claim_C6_missing_delta.1 _ "dz" ?_ (Or.inl ?_)
    · rw [show pdatasets [(⟨"dz", "t", 1/3, 0, "f1"⟩ : PRow),
        ⟨"dz", "t", 1/3, 1, "f1"⟩] = ["dz"] from rfl]
      exact List.mem_singleton.mpr rfl
    · have hv : sampleVar (scoresOf
          [(⟨"dz", "t", 1/3, 0, "f1"⟩ : PRow), ⟨"dz", "t", 1/3, 1, "f1"⟩] "dz") =
          some 0 := by
        rw [show scoresOf [(⟨"dz", "t", 1/3, 0, "f1"⟩ : PRow),
          ⟨"dz", "t", 1/3, 1, "f1"⟩] "dz" = [1/3, 1/3] from rfl]
        norm_num [sampleVar, qmean, List.sum_cons, List.sum_nil]
      rw [sampleStd, hv]
      simp [Real.sqrt_zero]
  · refine claim_C6_missing_delta.2 pipelinesC3 _ "dz" (by simp) ?_ ?_ ?_
    · intro r hr
      rcases List.mem_cons.mp hr with rfl | hr2
      · rfl
      · rcases List.mem_singleton.mp hr2 with rfl
        rfl
    · rw [show pdatasets pipelinesC3 = ["syn"] from rfl]
      simp
    · intro r hr r2 hr2
      rcases List.mem_cons.mp hr with rfl | hr3 <;>
        rcases List.mem_cons.mp hr2 with rfl | hr4 <;>
          first
          | rfl
          | (rcases List.mem_singleton.mp hr3 with rfl
             first | rfl | (rcases List.mem_singleton.mp hr4 with rfl; rfl))
          | (rcases List.mem_singleton.mp hr4 with rfl; rfl)

end MLBazaar
